import Mathlib

/-!
Verification of the muxaudio multiplexing core against its specification.

The definitions below are a shallow embedding of the C sources:
  src/buffer.c      - growable byte buffer (mux_buffer and its operations)
  src/mux_leb128.c  - LEB128 varint codec and the dual-mode frame codec
  src/core.c        - codec registry and encoder construction
  src/codec_pcm.c, src/codec_alaw.c, src/codec_amr.c - decoder_read and the
                      AMR-NB encoder state machine

Machine integers are modelled as Nat with explicit reductions modulo 2^w
where the C code can overflow (uint64_t arithmetic in the LEB128 decoder);
bytes are Nat values (the code only ever masks them with & 0x7f / & 0x80,
which we translate as % 128 and testBit 7, both exact for arbitrary Nat).
Fallible C functions returning int error codes become Except Int or carry
the code in a result record.  Allocation failure (MUX_ERROR_NOMEM paths)
and null-pointer argument checks are outside the model: buffers always
grow, and pointer arguments that a claim needs to vary (the null read
destination of mux_buffer_read, the null payload of mux_leb128_read_frame,
the null function pointers of the codec ops table) are modelled explicitly
as Bool flags or Option values.
-/

/-! ### Return codes and stream types (include/mux.h) -/

def MUX_OK : Int := 0
def MUX_ERROR_NOMEM : Int := -2
def MUX_ERROR_INVAL : Int := -3
def MUX_ERROR_AGAIN : Int := -4
def MUX_ERROR_NOCODEC : Int := -5

def MUX_STREAM_AUDIO : Nat := 0
def MUX_STREAM_SIDE_CHANNEL : Nat := 1

/-! ### Growable byte buffer (src/buffer.c)

struct mux_buffer has fields data, size, capacity, read_pos.  The cells of
the C array at indices >= size are never read, so we model the array
contents as the list of its first size bytes: size is data.length.
-/

structure mux_buffer where
  data : List Nat
  capacity : Nat
  read_pos : Nat
deriving Repr, DecidableEq

/-- mux_buffer_init: zeroed buffer with the requested capacity
(malloc success path; data cells are uninitialised, hence absent). -/
def mux_buffer_init (initial_capacity : Nat) : mux_buffer :=
  { data := [], capacity := initial_capacity, read_pos := 0 }

/-- mux_buffer_ensure_capacity: grow to max(capacity * 3/2, needed)
when needed exceeds capacity (realloc success path). -/
def mux_buffer_ensure_capacity (buf : mux_buffer) (needed : Nat) : mux_buffer :=
  if needed ≤ buf.capacity then buf
  else
    let grown := buf.capacity + buf.capacity / 2
    let new_capacity := if grown < needed then needed else grown
    { buf with capacity := new_capacity }

/-- mux_buffer_write: append bytes, growing storage first.  The C function
returns MUX_OK on every path modelled here (data non-null, malloc ok). -/
def mux_buffer_write (buf : mux_buffer) (bytes : List Nat) : mux_buffer :=
  if bytes.length = 0 then buf
  else
    let buf := mux_buffer_ensure_capacity buf (buf.data.length + bytes.length)
    { buf with data := buf.data ++ bytes }

/-- Result of mux_buffer_read: return code, the bytes copied to the
destination (empty when the destination pointer is null), the value
stored in *bytes_read, and the buffer afterwards. -/
structure buffer_read_result where
  ret : Int
  out : List Nat
  bytes_read : Nat
  buf : mux_buffer
deriving Repr, DecidableEq

/-- mux_buffer_read: copy up to size unread bytes, advance read_pos,
reset the buffer when fully drained.  dst_null models a NULL data
argument (the memcpy is skipped, everything else is unchanged). -/
def mux_buffer_read (buf : mux_buffer) (size : Nat) (dst_null : Bool) :
    buffer_read_result :=
  let available := buf.data.length - buf.read_pos
  if available = 0 then
    { ret := MUX_ERROR_AGAIN, out := [], bytes_read := 0, buf := buf }
  else
    let size := if available < size then available else size
    let out := if dst_null then [] else (buf.data.drop buf.read_pos).take size
    let read_pos := buf.read_pos + size
    let buf' :=
      if read_pos = buf.data.length then
        { buf with data := [], read_pos := 0 }
      else
        { buf with read_pos := read_pos }
    { ret := MUX_OK, out := out, bytes_read := size, buf := buf' }

/-- mux_buffer_available. -/
def mux_buffer_available (buf : mux_buffer) : Nat :=
  buf.data.length - buf.read_pos

/-- mux_buffer_clear: logical reset, capacity kept. -/
def mux_buffer_clear (buf : mux_buffer) : mux_buffer :=
  { buf with data := [], read_pos := 0 }

/-! ### LEB128 varint codec (src/mux_leb128.c) -/

/-- Loop of mux_leb128_encode: emit value in 7-bit groups, low first,
with the continuation bit 0x80 on every byte but the last.  space is the
room left in the output buffer (output_size - count); the C code checks
count >= output_size before storing each byte and fails with
MUX_ERROR_INVAL. -/
def mux_leb128_encode_loop (value : Nat) : Nat → Except Int (List Nat)
  | 0 => .error MUX_ERROR_INVAL
  | space + 1 =>
    let byte := value % 128
    let value' := value / 128
    if value' = 0 then .ok [byte]
    else
      match mux_leb128_encode_loop value' space with
      | .ok rest => .ok ((byte ||| 128) :: rest)
      | .error e => .error e

/-- mux_leb128_encode (null output pointer case excluded): returns the
bytes written, or MUX_ERROR_INVAL when output_size is too small.  The C
function returns the byte count; here it is the length of the result. -/
def mux_leb128_encode (value : Nat) (output_size : Nat) : Except Int (List Nat) :=
  mux_leb128_encode_loop value output_size

/-- Loop of mux_leb128_decode over the input bytes from the current
position.  result accumulates with uint64_t wrap-around on the shifted
contribution, exactly as the C expression
  result |= (uint64_t)(byte & 0x7f) << shift
does; shift grows by 7 per byte and the function fails with
MUX_ERROR_INVAL as soon as shift reaches 64, which happens before the
continuation bit of the current byte is examined.  Running out of input
bytes yields MUX_ERROR_AGAIN.  On success it returns the decoded value
and the number of bytes consumed. -/
def mux_leb128_decode_loop : List Nat → Nat → Nat → Except Int (Nat × Nat)
  | [], _, _ => .error MUX_ERROR_AGAIN
  | byte :: rest, result, shift =>
    let result := result ||| (byte % 128) * 2 ^ shift % 2 ^ 64
    let shift := shift + 7
    if 64 ≤ shift then .error MUX_ERROR_INVAL
    else if byte.testBit 7 then
      match mux_leb128_decode_loop rest result shift with
      | .ok (value, count) => .ok (value, count + 1)
      | .error e => .error e
    else .ok (result, 1)

/-- mux_leb128_decode (null pointer cases excluded): decode an unsigned
LEB128 value from the front of input, returning (value, bytes_read). -/
def mux_leb128_decode (input : List Nat) : Except Int (Nat × Nat) :=
  mux_leb128_decode_loop input 0 0

/-! ### Frame codec (src/mux_leb128.c) -/

/-- mux_leb128_write_frame with a non-null payload pointer.
Passthrough mode (num_streams = 1) appends the raw payload; mux mode
prepends the LEB128 header encoding (payload_size << 1) | (stream_type & 1),
computed in size_t arithmetic (modulo 2^64), using a 10-byte header
buffer. -/
def mux_leb128_write_frame (output : mux_buffer) (payload : List Nat)
    (stream_type : Nat) (num_streams : Nat) : Except Int mux_buffer :=
  if num_streams = 1 then
    .ok (mux_buffer_write output payload)
  else
    let length_with_stream := (payload.length * 2 + stream_type % 2) % 2 ^ 64
    match mux_leb128_encode length_with_stream 10 with
    | .error e => .error e
    | .ok header =>
      .ok (mux_buffer_write (mux_buffer_write output header) payload)

/-- Result of mux_leb128_read_frame: return code, bytes copied into the
payload destination (empty when that pointer is null), the values stored
through the payload_size and stream_type out-parameters (none when the
call returns without writing them), and the input buffer afterwards. -/
structure read_frame_result where
  ret : Int
  out : List Nat
  payload_size : Option Nat
  stream_type : Option Nat
  buf : mux_buffer
deriving Repr, DecidableEq

/-- mux_leb128_read_frame.  Passthrough mode drains
min(available, payload_capacity) bytes and reports the audio stream; mux
mode decodes the LEB128 header from the unread region, answers
MUX_ERROR_AGAIN without touching the buffer while the frame is
incomplete, answers MUX_ERROR_INVAL with the required size stored in
*payload_size when the destination is non-null but too small, and
otherwise consumes header plus payload, resetting the buffer when that
drains it completely.  payload_null models a NULL payload pointer. -/
def mux_leb128_read_frame (input : mux_buffer) (payload_null : Bool)
    (payload_capacity : Nat) (num_streams : Nat) : read_frame_result :=
  if num_streams = 1 then
    let available := input.data.length - input.read_pos
    if available = 0 then
      { ret := MUX_ERROR_AGAIN, out := [], payload_size := none,
        stream_type := none, buf := input }
    else
      let actual := if available < payload_capacity then available else payload_capacity
      let out := if payload_null then [] else (input.data.drop input.read_pos).take actual
      let read_pos := input.read_pos + actual
      let input' :=
        if read_pos = input.data.length then
          { input with data := [], read_pos := 0 }
        else
          { input with read_pos := read_pos }
      { ret := MUX_OK, out := out, payload_size := some actual,
        stream_type := some MUX_STREAM_AUDIO, buf := input' }
  else
    match mux_leb128_decode (input.data.drop input.read_pos) with
    | .error e =>
      { ret := e, out := [], payload_size := none, stream_type := none, buf := input }
    | .ok (length_with_stream, leb128_bytes) =>
      let stream := length_with_stream % 2
      let actual := length_with_stream / 2
      if input.data.length - input.read_pos < leb128_bytes + actual then
        { ret := MUX_ERROR_AGAIN, out := [], payload_size := none,
          stream_type := none, buf := input }
      else if payload_null = false ∧ payload_capacity < actual then
        { ret := MUX_ERROR_INVAL, out := [], payload_size := some actual,
          stream_type := some stream, buf := input }
      else
        let pos1 := input.read_pos + leb128_bytes
        let out := if payload_null then [] else (input.data.drop pos1).take actual
        let pos2 := pos1 + actual
        let input' :=
          if pos2 = input.data.length then
            { input with data := [], read_pos := 0 }
          else
            { input with read_pos := pos2 }
        { ret := MUX_OK, out := out, payload_size := some actual,
          stream_type := some stream, buf := input' }

/-! ### Decoder output draining (src/codec_pcm.c, codec_alaw.c, codec_amr.c)

Only the two output buffers of struct mux_decoder matter to decoder_read;
the codec-specific state is untouched by it.
-/

structure mux_decoder where
  audio_output : mux_buffer
  side_output : mux_buffer
deriving Repr, DecidableEq

/-- Result of a decoder_read call: return code, bytes copied, the value
stored in *output_written, the value stored in *stream_type (none when
the call fails before writing it), and the decoder afterwards. -/
structure decoder_read_result where
  ret : Int
  out : List Nat
  output_written : Nat
  stream_type : Option Nat
  dec : mux_decoder
deriving Repr, DecidableEq

/-- Common body of pcm_decoder_read, alaw_decoder_read and
amr_decoder_read (the three C functions are textually identical): try the
audio output buffer first, then the side-channel buffer, else
MUX_ERROR_AGAIN with *output_written = 0.  Null-pointer argument checks
excluded. -/
def decoder_read_impl (dec : mux_decoder) (output_size : Nat) :
    decoder_read_result :=
  let r := mux_buffer_read dec.audio_output output_size false
  if r.ret = MUX_OK then
    { ret := MUX_OK, out := r.out, output_written := r.bytes_read,
      stream_type := some MUX_STREAM_AUDIO,
      dec := { dec with audio_output := r.buf } }
  else
    let r := mux_buffer_read dec.side_output output_size false
    if r.ret = MUX_OK then
      { ret := MUX_OK, out := r.out, output_written := r.bytes_read,
        stream_type := some MUX_STREAM_SIDE_CHANNEL,
        dec := { dec with side_output := r.buf } }
    else
      { ret := MUX_ERROR_AGAIN, out := [], output_written := 0,
        stream_type := none, dec := dec }

/-- pcm_decoder_read (src/codec_pcm.c). -/
def pcm_decoder_read (dec : mux_decoder) (output_size : Nat) : decoder_read_result :=
  decoder_read_impl dec output_size

/-- alaw_decoder_read (src/codec_alaw.c). -/
def alaw_decoder_read (dec : mux_decoder) (output_size : Nat) : decoder_read_result :=
  decoder_read_impl dec output_size

/-- amr_decoder_read (src/codec_amr.c). -/
def amr_decoder_read (dec : mux_decoder) (output_size : Nat) : decoder_read_result :=
  decoder_read_impl dec output_size

/-! ### Codec registry and encoder construction (src/core.c)

The codec identifier order follows the codec_info_table in src/core.c
(the enum in include/mux.h as shipped is a stale subset of it): PCM = 0,
OPUS = 1, VORBIS = 2, FLAC = 3, MP3 = 4, AAC = 5, ALAW = 6, MULAW = 7,
AMR = 8, AMR_WB = 9, MUX_CODEC_MAX = 10.  An enum value is modelled as
Int, since C allows casting out-of-range and negative values into it.
-/

def MUX_CODEC_MAX : Int := 10

/-- A codec adapter operations table.  For the construction claim only
the encoder_init entry matters; it is Option-valued because the C slot
is a function pointer that mux_encoder_init checks against NULL.  The
modelled pointer maps (sample_rate, num_channels) to the int the adapter
init returns. -/
structure mux_codec_ops where
  encoder_init : Option (Nat → Nat → Int)

/-- Which optional codec libraries were compiled in (the HAVE_* macros
of src/core.c). -/
structure build_config where
  have_mp3 : Bool
  have_vorbis : Bool
  have_opus : Bool
  have_flac : Bool
  have_aac : Bool
  have_amr : Bool
  have_amr_wb : Bool

/-- codec_ops_table: PCM, ALAW and MULAW are always present; the other
entries are present only when the matching library was compiled in.
adapters supplies the per-codec ops structs the table points at. -/
def codec_ops_table (cfg : build_config) (adapters : Fin 10 → mux_codec_ops) :
    Fin 10 → Option mux_codec_ops :=
  fun i =>
    match (i : Nat) with
    | 0 => some (adapters i)
    | 1 => if cfg.have_opus then some (adapters i) else none
    | 2 => if cfg.have_vorbis then some (adapters i) else none
    | 3 => if cfg.have_flac then some (adapters i) else none
    | 4 => if cfg.have_mp3 then some (adapters i) else none
    | 5 => if cfg.have_aac then some (adapters i) else none
    | 6 => some (adapters i)
    | 7 => some (adapters i)
    | 8 => if cfg.have_amr then some (adapters i) else none
    | _ => if cfg.have_amr_wb then some (adapters i) else none

/-- mux_get_codec_ops: NULL for identifiers outside [0, MUX_CODEC_MAX),
otherwise the (possibly NULL) table entry. -/
def mux_get_codec_ops (cfg : build_config) (adapters : Fin 10 → mux_codec_ops)
    (type : Int) : Option mux_codec_ops :=
  if h : type < 0 ∨ MUX_CODEC_MAX ≤ type then none
  else
    codec_ops_table cfg adapters
      ⟨type.toNat, by
        simp only [MUX_CODEC_MAX, not_or, not_lt] at h
        omega⟩

/-- The fields of struct mux_encoder that mux_encoder_init fills in
before delegating to the adapter (codec_data and the error record are
owned by the adapter and excluded). -/
structure mux_encoder where
  codec_type : Int
  sample_rate : Nat
  num_channels : Nat
  num_streams : Nat
  output : mux_buffer

/-- mux_encoder_init (enc non-null, buffer allocation succeeding):
validates num_streams, looks the codec up, fails with MUX_ERROR_NOCODEC
when the ops entry or its encoder_init function pointer is NULL, and
otherwise allocates the output buffer and delegates to the adapter,
rolling the buffer back if the adapter fails. -/
def mux_encoder_init (cfg : build_config) (adapters : Fin 10 → mux_codec_ops)
    (codec_type : Int) (sample_rate num_channels num_streams : Nat) :
    Except Int mux_encoder :=
  if num_streams ≠ 1 ∧ num_streams ≠ 2 then .error MUX_ERROR_INVAL
  else
    match mux_get_codec_ops cfg adapters codec_type with
    | none => .error MUX_ERROR_NOCODEC
    | some ops =>
      match ops.encoder_init with
      | none => .error MUX_ERROR_NOCODEC
      | some init =>
        let enc : mux_encoder :=
          { codec_type := codec_type, sample_rate := sample_rate,
            num_channels := num_channels, num_streams := num_streams,
            output := mux_buffer_init 4096 }
        let ret := init sample_rate num_channels
        if ret ≠ MUX_OK then .error ret else .ok enc

/-! ### AMR-NB encoder state machine (src/codec_amr.c)

The native opencore-amrnb entry point Encoder_Interface_Encode is an
external collaborator; it is a parameter native mapping the 160 input
samples to the encoded frame bytes (its int return is the frame length,
so a negative-error return is outside the model and frames are plain
byte lists).  The mode and dtx fields do not influence the buffering
logic and are absorbed into native.
-/

def AMR_FRAME_SAMPLES : Nat := 160

/-- struct amr_encoder_data together with the encoder fields its
operations use: the accumulated partial frame (input_samples is the
length), the encoder output buffer, num_streams. -/
structure amr_encoder_state where
  input_buf : List Int
  output : mux_buffer
  num_streams : Nat

/-- (const int16_t *)input reinterpretation: consecutive little-endian
byte pairs as signed 16-bit samples; a trailing odd byte is not a sample
(samples_available = input_size / sizeof(int16_t)). -/
def bytes_to_samples : List Nat → List Int
  | b0 :: b1 :: rest =>
    let v := b0 % 256 + 256 * (b1 % 256)
    (if v < 32768 then (v : Int) else (v : Int) - 65536) :: bytes_to_samples rest
  | _ => []

/-- The audio accumulation loop of amr_encoder_encode: top up the
160-sample window, run the native encoder and emit the frame through
mux_leb128_write_frame each time the window fills, and keep the partial
remainder.  Returns the final window contents, the output buffer, and
the frames written (in order).  The C loop invariant input_samples <
AMR_FRAME_SAMPLES is checked explicitly so that the recursion is well
founded on every input; the violation branch is unreachable from the
states the encoder actually constructs. -/
def amr_encoder_encode_loop (native : List Int → List Nat) (num_streams : Nat) :
    List Int → List Int → mux_buffer →
    Except Int (List Int × mux_buffer × List (List Nat))
  | input_buf, [], output => .ok (input_buf, output, [])
  | input_buf, s :: ss, output =>
    if h : input_buf.length < AMR_FRAME_SAMPLES then
      let samples := s :: ss
      let need := AMR_FRAME_SAMPLES - input_buf.length
      let copy := if samples.length < need then samples.length else need
      let input_buf' := input_buf ++ samples.take copy
      let rest := samples.drop copy
      if input_buf'.length = AMR_FRAME_SAMPLES then
        let frame := native input_buf'
        match mux_leb128_write_frame output frame MUX_STREAM_AUDIO num_streams with
        | .error e => .error e
        | .ok output' =>
          match amr_encoder_encode_loop native num_streams [] rest output' with
          | .ok (buf'', out'', frames) => .ok (buf'', out'', frame :: frames)
          | .error e => .error e
      else
        match amr_encoder_encode_loop native num_streams input_buf' rest output with
        | .ok r => .ok r
        | .error e => .error e
    else .error MUX_ERROR_INVAL
termination_by _ samples _ => samples.length
decreasing_by
  all_goals
    simp only [List.length_drop, List.length_cons, AMR_FRAME_SAMPLES] at h ⊢
    split <;> omega

/-- amr_encoder_encode (null-pointer cases excluded).  Side-channel
input goes through mux_leb128_write_frame verbatim; audio input is
reinterpreted as samples and folded into the fixed-size window.  Returns
the new state, the value stored in *input_consumed (a byte count), and
the list of frames written during this call. -/
def amr_encoder_encode (native : List Int → List Nat) (st : amr_encoder_state)
    (input : List Nat) (stream_type : Nat) :
    Except Int (amr_encoder_state × Nat × List (List Nat)) :=
  if input.length = 0 then .ok (st, 0, [])
  else if stream_type ≠ MUX_STREAM_AUDIO then
    match mux_leb128_write_frame st.output input stream_type st.num_streams with
    | .error e => .error e
    | .ok output' => .ok ({ st with output := output' }, input.length, [])
  else
    let samples := bytes_to_samples input
    match amr_encoder_encode_loop native st.num_streams st.input_buf samples st.output with
    | .error e => .error e
    | .ok (input_buf', output', frames) =>
      .ok ({ st with input_buf := input_buf', output := output' },
           2 * samples.length, frames)

/-- amr_encoder_finalize: when a partial frame is pending, zero-pad it
to 160 samples, encode it, write the frame when the native encoder
produced bytes, and clear the window.  Returns the new state and the
frames written. -/
def amr_encoder_finalize (native : List Int → List Nat) (st : amr_encoder_state) :
    Except Int (amr_encoder_state × List (List Nat)) :=
  if 0 < st.input_buf.length then
    let padded := st.input_buf ++ List.replicate (AMR_FRAME_SAMPLES - st.input_buf.length) 0
    let frame := native padded
    if 0 < frame.length then
      match mux_leb128_write_frame st.output frame MUX_STREAM_AUDIO st.num_streams with
      | .error e => .error e
      | .ok output' => .ok ({ st with input_buf := [], output := output' }, [frame])
    else .ok ({ st with input_buf := [] }, [])
  else .ok (st, [])

/-! ### Claim harnesses -/

/-- One buffer operation of the sequences quantified over in the
invariant claim. -/
inductive buffer_op where
  | write (bytes : List Nat)
  | read (size : Nat) (dst_null : Bool)
  | clear
deriving Repr, DecidableEq

/-- Apply one buffer operation. -/
def apply_buffer_op (buf : mux_buffer) : buffer_op → mux_buffer
  | .write bytes => mux_buffer_write buf bytes
  | .read size dst_null => (mux_buffer_read buf size dst_null).buf
  | .clear => mux_buffer_clear buf

/-- Apply a sequence of buffer operations in order. -/
def apply_buffer_ops (buf : mux_buffer) (ops : List buffer_op) : mux_buffer :=
  ops.foldl apply_buffer_op buf

/-- The byte-buffer invariant of the specification:
read_pos <= size <= capacity (size is data.length in the model). -/
def mux_buffer_invariant (buf : mux_buffer) : Prop :=
  buf.read_pos ≤ buf.data.length ∧ buf.data.length ≤ buf.capacity

instance : DecidablePred mux_buffer_invariant := fun buf =>
  inferInstanceAs (Decidable (_ ∧ _))

/-- Incremental dual-stream demux harness: append each chunk to the
input buffer in turn and call mux_leb128_read_frame (payload non-null,
capacity cap) after each append, collecting the results. -/
def chunked_read_frames (buf : mux_buffer) (chunks : List (List Nat)) (cap : Nat) :
    List read_frame_result :=
  match chunks with
  | [] => []
  | chunk :: rest =>
    let buf' := mux_buffer_write buf chunk
    let r := mux_leb128_read_frame buf' false cap 2
    r :: chunked_read_frames r.buf rest cap
/-! ### LEB128 lemmas -/

/-- The byte sequence unsigned LEB128 assigns to a value (proof helper:
the list mux_leb128_encode produces when the output buffer is large
enough). -/
def lebBytes (v : Nat) : List Nat :=
  if v / 128 = 0 then [v % 128]
  else (v % 128 + 128) :: lebBytes (v / 128)
termination_by v
decreasing_by
  exact Nat.div_lt_self (by omega) (by omega)

lemma lor_mul_pow_eq_add {r s : Nat} (m : Nat) (h : r < 2 ^ s) :
    r ||| m * 2 ^ s = r + m * 2 ^ s := by
  calc r ||| m * 2 ^ s = 2 ^ s * m ||| r := by rw [Nat.lor_comm, Nat.mul_comm]
    _ = 2 ^ s * m + r := (Nat.mul_add_lt_is_or h m).symm
    _ = r + m * 2 ^ s := by rw [Nat.add_comm, Nat.mul_comm]

lemma lor_128_eq_add {b : Nat} (h : b < 128) : b ||| 128 = b + 128 := by
  have := @lor_mul_pow_eq_add b 7 1 (by omega)
  simpa using this

lemma testBit7_of_lt {b : Nat} (h : b < 128) : b.testBit 7 = false :=
  Nat.testBit_lt_two_pow (by omega)

lemma testBit7_add_128 {b : Nat} (h : b < 128) : (b + 128).testBit 7 = true := by
  rw [Nat.add_comm]
  have : ((2 ^ 7 + b).testBit 7) = !(b.testBit 7) := Nat.testBit_two_pow_add_eq b 7
  simpa [testBit7_of_lt h] using this

lemma lebBytes_length_le {v k : Nat} (hk : 0 < k) (hv : v < 2 ^ (7 * k)) :
    (lebBytes v).length ≤ k := by
  induction v using Nat.strong_induction_on generalizing k with
  | _ v ih =>
    rw [lebBytes]
    by_cases h : v / 128 = 0
    · simp [h]; omega
    · simp only [h, if_false, List.length_cons]
      have hlt : v / 128 < v := Nat.div_lt_self (by omega) (by omega)
      have hk2 : 2 ≤ k := by
        by_contra hc
        have : k = 1 := by omega
        subst this
        simp at hv
        omega
      have : v / 128 < 2 ^ (7 * (k - 1)) := by
        have h1 : v < 2 ^ (7 * (k - 1)) * 128 := by
          have h2 : 7 * (k - 1) + 7 = 7 * k := by omega
          calc v < 2 ^ (7 * k) := hv
            _ = 2 ^ (7 * (k - 1)) * 128 := by rw [← h2, pow_add]; norm_num
        exact (Nat.div_lt_iff_lt_mul (by omega)).mpr h1
      have := @ih (v / 128) hlt (k - 1) (by omega) this
      omega

lemma encode_loop_ok {v space : Nat} (h : (lebBytes v).length ≤ space) :
    mux_leb128_encode_loop v space = .ok (lebBytes v) := by
  induction v using Nat.strong_induction_on generalizing space with
  | _ v ih =>
    rw [lebBytes] at h ⊢
    by_cases h0 : v / 128 = 0
    · simp only [h0, if_true, List.length_singleton] at h ⊢
      obtain ⟨s, rfl⟩ : ∃ s, space = s + 1 := ⟨space - 1, by omega⟩
      simp [mux_leb128_encode_loop, h0]
    · simp only [h0, if_false, List.length_cons] at h ⊢
      obtain ⟨s, rfl⟩ : ∃ s, space = s + 1 := ⟨space - 1, by omega⟩
      have hlt : v / 128 < v := Nat.div_lt_self (by omega) (by omega)
      have := @ih (v / 128) hlt s (by omega)
      simp [mux_leb128_encode_loop, h0, this, lor_128_eq_add (Nat.mod_lt _ (by omega))]

lemma decode_loop_lebBytes {v : Nat} :
    ∀ (shift result : Nat) (rest : List Nat),
      result < 2 ^ shift → shift + 7 * (lebBytes v).length ≤ 63 →
      mux_leb128_decode_loop (lebBytes v ++ rest) result shift =
        .ok (result + v * 2 ^ shift, (lebBytes v).length) := by
  induction v using Nat.strong_induction_on with
  | _ v ih =>
    intro shift result rest hres hlen
    rw [lebBytes] at hlen ⊢
    by_cases h0 : v / 128 = 0
    · have hv : v < 128 := by omega
      simp only [h0, if_true, List.length_singleton] at hlen ⊢
      have hmod : v % 128 = v := Nat.mod_eq_of_lt hv
      have hsmall : v * 2 ^ shift < 2 ^ 64 := by
        have h1 : v * 2 ^ shift < 128 * 2 ^ shift :=
          (Nat.mul_lt_mul_right (Nat.two_pow_pos shift)).mpr hv
        have h2 : (128 : Nat) * 2 ^ shift = 2 ^ (shift + 7) := by rw [pow_add]; ring
        have h3 : (2 : Nat) ^ (shift + 7) ≤ 2 ^ 64 :=
          Nat.pow_le_pow_right (by omega) (by omega)
        omega
      rw [hmod, List.singleton_append]
      simp only [mux_leb128_decode_loop]
      rw [if_neg (show ¬ 64 ≤ shift + 7 by omega)]
      rw [hmod, Nat.mod_eq_of_lt hsmall, lor_mul_pow_eq_add _ hres]
      simp [testBit7_of_lt hv]
    · simp only [h0, if_false, List.length_cons] at hlen ⊢
      have hL1 : 1 ≤ (lebBytes (v / 128)).length := by
        rw [lebBytes]; split <;> simp
      have hmlt : v % 128 < 128 := Nat.mod_lt _ (by omega)
      have hcsmall : v % 128 * 2 ^ shift < 2 ^ 64 := by
        have h1 : v % 128 * 2 ^ shift < 128 * 2 ^ shift :=
          (Nat.mul_lt_mul_right (Nat.two_pow_pos shift)).mpr hmlt
        have h2 : (128 : Nat) * 2 ^ shift = 2 ^ (shift + 7) := by rw [pow_add]; ring
        have h3 : (2 : Nat) ^ (shift + 7) ≤ 2 ^ 64 :=
          Nat.pow_le_pow_right (by omega) (by omega)
        omega
      rw [List.cons_append]
      simp only [mux_leb128_decode_loop]
      rw [if_neg (show ¬ 64 ≤ shift + 7 by omega)]
      have hbyte : (v % 128 + 128) % 128 = v % 128 := by omega
      rw [hbyte, Nat.mod_eq_of_lt hcsmall, lor_mul_pow_eq_add _ hres]
      have hres2 : result + v % 128 * 2 ^ shift < 2 ^ (shift + 7) := by
        have h1 : v % 128 * 2 ^ shift ≤ 127 * 2 ^ shift :=
          Nat.mul_le_mul_right _ (by omega)
        have h2 : (2 : Nat) ^ (shift + 7) = 128 * 2 ^ shift := by rw [pow_add]; ring
        omega
      have hlt : v / 128 < v := Nat.div_lt_self (by omega) (by omega)
      have hrec := ih (v / 128) hlt (shift + 7) (result + v % 128 * 2 ^ shift) rest
        hres2 (by omega)
      simp only [testBit7_add_128 hmlt, if_true, hrec]
      have harith : result + v % 128 * 2 ^ shift + v / 128 * 2 ^ (shift + 7) =
          result + v * 2 ^ shift := by
        have hv : 128 * (v / 128) + v % 128 = v := Nat.div_add_mod v 128
        calc result + v % 128 * 2 ^ shift + v / 128 * 2 ^ (shift + 7)
            = result + (128 * (v / 128) + v % 128) * 2 ^ shift := by rw [pow_add]; ring
          _ = result + v * 2 ^ shift := by rw [hv]
      rw [harith]

lemma decode_loop_again {l : List Nat} :
    ∀ (shift result : Nat), (∀ b ∈ l, b.testBit 7 = true) →
      shift + 7 * l.length ≤ 63 →
      mux_leb128_decode_loop l result shift = .error MUX_ERROR_AGAIN := by
  induction l with
  | nil => intro shift result _ _; rfl
  | cons b rest ih =>
    intro shift result hcont hlen
    simp only [List.length_cons] at hlen
    simp only [mux_leb128_decode_loop]
    have hnot : ¬ 64 ≤ shift + 7 := by omega
    have hb : b.testBit 7 = true := hcont b (by simp)
    rw [if_neg hnot, hb, if_pos rfl]
    rw [ih (shift + 7) _ (fun x hx => hcont x (by simp [hx])) (by omega)]

lemma lebBytes_cont {v : Nat} :
    ∀ (s a : List Nat), s ++ a = lebBytes v → a ≠ [] →
      ∀ x ∈ s, x.testBit 7 = true := by
  induction v using Nat.strong_induction_on with
  | _ v ih =>
    intro s a happ hne x hx
    rw [lebBytes] at happ
    by_cases h0 : v / 128 = 0
    · simp only [h0, if_true] at happ
      cases s with
      | nil => cases hx
      | cons y s' =>
        simp only [List.cons_append, List.cons.injEq] at happ
        have : s' ++ a = [] := happ.2
        rcases List.append_eq_nil.mp this with ⟨-, rfl⟩
        exact absurd rfl hne
    · simp only [h0, if_false] at happ
      cases s with
      | nil => cases hx
      | cons y s' =>
        simp only [List.cons_append, List.cons.injEq] at happ
        rcases List.mem_cons.mp hx with rfl | hx'
        · rw [happ.1]; exact testBit7_add_128 (Nat.mod_lt _ (by omega))
        · exact ih (v / 128) (Nat.div_lt_self (by omega) (by omega)) s' a happ.2 hne x hx'

lemma mux_leb128_encode_eq {v : Nat} (hv : v < 2 ^ 70) :
    mux_leb128_encode v 10 = .ok (lebBytes v) :=
  encode_loop_ok (lebBytes_length_le (by omega) hv)

lemma mux_leb128_decode_lebBytes {v : Nat} (hv : v < 2 ^ 63) (rest : List Nat) :
    mux_leb128_decode (lebBytes v ++ rest) = .ok (v, (lebBytes v).length) := by
  have hlen : (lebBytes v).length ≤ 9 := lebBytes_length_le (by omega) (by norm_num; omega)
  have h := @decode_loop_lebBytes v 0 0 rest (by norm_num) (by omega)
  simpa [mux_leb128_decode] using h

/-- Claim C1 (code bug): the LEB128 round trip fails at v = 2^63.
mux_leb128_encode emits the valid 10-byte encoding of 2^63, but
mux_leb128_decode rejects that very byte sequence with MUX_ERROR_INVAL,
because its overflow check (shift >= 64) fires on the 10th byte before
the terminating continuation bit is examined.  The claim says decode
succeeds on every encoded 64-bit value, returning (v, 10) here.  (For
values below 2^63 the round trip does hold: mux_leb128_decode_lebBytes
together with mux_leb128_encode_eq; the 10-byte length bound of the
claim also holds, via lebBytes_length_le.) -/
theorem C1_leb128_decode_rejects_valid_ten_byte_encoding :
    (9223372036854775808 : Nat) = 2 ^ 63 ∧
    mux_leb128_encode 9223372036854775808 10 =
      .ok [128, 128, 128, 128, 128, 128, 128, 128, 128, 1] ∧
    ([128, 128, 128, 128, 128, 128, 128, 128, 128, 1] : List Nat).length = 10 ∧
    mux_leb128_decode [128, 128, 128, 128, 128, 128, 128, 128, 128, 1] =
      .error MUX_ERROR_INVAL := ⟨by norm_num, rfl, rfl, rfl⟩

/-! ### Frame codec lemmas -/

lemma mux_buffer_write_data (buf : mux_buffer) (bytes : List Nat) :
    (mux_buffer_write buf bytes).data = buf.data ++ bytes := by
  simp only [mux_buffer_write, mux_buffer_ensure_capacity]
  split
  · next h => simp [List.length_eq_zero.mp h]
  · split <;> simp

lemma mux_buffer_write_read_pos (buf : mux_buffer) (bytes : List Nat) :
    (mux_buffer_write buf bytes).read_pos = buf.read_pos := by
  simp only [mux_buffer_write, mux_buffer_ensure_capacity]
  split
  · rfl
  · split <;> simp

lemma write_frame_mux (out : mux_buffer) (P : List Nat) (b : Nat) :
    ∃ w, mux_leb128_write_frame out P b 2 = .ok w ∧
      w.data = out.data ++ lebBytes ((P.length * 2 + b % 2) % 2 ^ 64) ++ P ∧
      w.read_pos = out.read_pos := by
  have hlws : (P.length * 2 + b % 2) % 2 ^ 64 < 2 ^ 70 := by
    have h1 : (P.length * 2 + b % 2) % 2 ^ 64 < 2 ^ 64 :=
      Nat.mod_lt _ (by norm_num)
    have h2 : (2:Nat) ^ 64 < 2 ^ 70 := by norm_num
    omega
  have henc := mux_leb128_encode_eq hlws
  simp only [mux_leb128_write_frame, if_neg (show ¬ (2:Nat) = 1 by norm_num), henc]
  exact ⟨_, rfl, by simp [mux_buffer_write_data], by simp [mux_buffer_write_read_pos]⟩

lemma lws_lt {P : List Nat} (b : Nat) (hP : P.length < 2 ^ 62) :
    P.length * 2 + b % 2 < 2 ^ 63 := by
  have h1 : (2:Nat) ^ 63 = 2 ^ 62 * 2 := by ring
  have h2 : b % 2 < 2 := Nat.mod_lt _ (by omega)
  omega

lemma read_frame_mux_needs_more {P : List Nat} {b : Nat} (hP : P.length < 2 ^ 62)
    {s t : List Nat} (hsplit : s ++ t = lebBytes (P.length * 2 + b % 2) ++ P)
    (ht : t ≠ []) (bc cap : Nat) :
    mux_leb128_read_frame ⟨s, bc, 0⟩ false cap 2 =
      ⟨MUX_ERROR_AGAIN, [], none, none, ⟨s, bc, 0⟩⟩ := by
  have hlws := lws_lt b hP
  have hL : (lebBytes (P.length * 2 + b % 2)).length ≤ 9 :=
    lebBytes_length_le (by omega) (by norm_num; omega)
  have haps : (P.length * 2 + b % 2) / 2 = P.length := by omega
  simp only [mux_leb128_read_frame, if_neg (show ¬ (2:Nat) = 1 by norm_num)]
  simp only [List.drop_zero]
  rcases List.append_eq_append_iff.mp hsplit with ⟨m, hm1, hm2⟩ | ⟨m, hm1, hm2⟩
  · -- lebBytes = s ++ m, t = m ++ P
    rcases List.eq_nil_or_concat m with rfl | hconcat
    · -- m = []: s is the whole header
      rw [List.append_nil] at hm1
      rw [List.nil_append] at hm2
      have hdec : mux_leb128_decode s = .ok (P.length * 2 + b % 2, s.length) := by
        have h := mux_leb128_decode_lebBytes hlws []
        rw [List.append_nil] at h
        rw [hm1] at h
        exact h
      rw [hdec]
      have hPne : P ≠ [] := by subst hm2; exact ht
      have hPlen : 0 < P.length := List.length_pos.mpr hPne
      simp only [haps]
      rw [if_pos (by omega)]
    · -- m ≠ []: s is a strict prefix of the header
      have hmne' : m ≠ [] := by
        rcases hconcat with ⟨l, x, rfl⟩; simp
      have hcont : ∀ x ∈ s, x.testBit 7 = true :=
        lebBytes_cont s m hm1.symm hmne'
      have hslen : s.length + m.length = (lebBytes (P.length * 2 + b % 2)).length := by
        rw [hm1]; simp
      have hmlen : 0 < m.length := List.length_pos.mpr hmne'
      have hdec : mux_leb128_decode s = .error MUX_ERROR_AGAIN :=
        decode_loop_again 0 0 hcont (by omega)
      rw [hdec]
  · -- s = lebBytes ++ m, P = m ++ t
    have hdec : mux_leb128_decode s = .ok (P.length * 2 + b % 2,
        (lebBytes (P.length * 2 + b % 2)).length) := by
      rw [hm1]; exact mux_leb128_decode_lebBytes hlws m
    rw [hdec]
    have htlen : 0 < t.length := List.length_pos.mpr ht
    have hslen : s.length = (lebBytes (P.length * 2 + b % 2)).length + m.length := by
      rw [hm1]; simp
    have hPlen : P.length = m.length + t.length := by rw [hm2]; simp
    simp only [haps]
    rw [if_pos (by omega)]

lemma read_frame_mux_complete {P : List Nat} {b : Nat} (hP : P.length < 2 ^ 62)
    (hb : b < 2) (bc cap : Nat) (hcap : P.length ≤ cap) :
    mux_leb128_read_frame ⟨lebBytes (P.length * 2 + b % 2) ++ P, bc, 0⟩ false cap 2 =
      ⟨MUX_OK, P, some P.length, some b, ⟨[], bc, 0⟩⟩ := by
  have hlws := lws_lt b hP
  have haps : (P.length * 2 + b % 2) / 2 = P.length := by omega
  have hstream : (P.length * 2 + b % 2) % 2 = b := by omega
  have hdec : mux_leb128_decode (lebBytes (P.length * 2 + b % 2) ++ P) =
      .ok (P.length * 2 + b % 2, (lebBytes (P.length * 2 + b % 2)).length) :=
    mux_leb128_decode_lebBytes hlws P
  simp only [mux_leb128_read_frame, if_neg (show ¬ (2:Nat) = 1 by norm_num),
    List.drop_zero, hdec]
  simp only [haps, hstream]
  rw [if_neg (by simp)]
  rw [if_neg (by simp [Nat.not_lt.mpr hcap])]
  simp [List.drop_left]

lemma lebBytes_length_pos (v : Nat) : 0 < (lebBytes v).length := by
  rw [lebBytes]; split <;> simp

lemma mux_buffer_write_eq (pre c : List Nat) (bc rp : Nat) :
    ∃ bc', mux_buffer_write ⟨pre, bc, rp⟩ c = ⟨pre ++ c, bc', rp⟩ := by
  refine ⟨(mux_buffer_write ⟨pre, bc, rp⟩ c).capacity, ?_⟩
  have h1 := mux_buffer_write_data ⟨pre, bc, rp⟩ c
  have h2 := mux_buffer_write_read_pos ⟨pre, bc, rp⟩ c
  cases h : mux_buffer_write ⟨pre, bc, rp⟩ c with
  | mk d cp r =>
    rw [h] at h1 h2
    simp at h1 h2
    simp [h1, h2]

lemma chunked_read_frames_cons (buf : mux_buffer) (chunk : List Nat)
    (rest : List (List Nat)) (cap : Nat) :
    chunked_read_frames buf (chunk :: rest) cap =
      (mux_leb128_read_frame (mux_buffer_write buf chunk) false cap 2) ::
        chunked_read_frames
          (mux_leb128_read_frame (mux_buffer_write buf chunk) false cap 2).buf rest cap := rfl

lemma chunked_read_frames_spec {P : List Nat} {b : Nat} (hP : P.length < 2 ^ 62)
    (hb : b < 2) {cap : Nat} (hcap : P.length ≤ cap) :
    ∀ (chunks : List (List Nat)) (pre : List Nat) (bc : Nat),
      chunks ≠ [] → (∀ c ∈ chunks, c ≠ []) →
      pre ++ chunks.join = lebBytes (P.length * 2 + b % 2) ++ P →
      ∃ rs r, chunked_read_frames ⟨pre, bc, 0⟩ chunks cap = rs ++ [r] ∧
        (∀ x ∈ rs, x.ret = MUX_ERROR_AGAIN) ∧
        r.ret = MUX_OK ∧ r.out = P ∧ r.payload_size = some P.length ∧
        r.stream_type = some b := by
  intro chunks
  induction chunks with
  | nil => intro pre bc h; exact absurd rfl h
  | cons c cs ih =>
    intro pre bc _ hne hjoin
    obtain ⟨bc', hw⟩ := mux_buffer_write_eq pre c bc 0
    cases cs with
    | nil =>
      simp only [List.join_cons, List.join_nil, List.append_nil, ← List.append_assoc] at hjoin
      have hread := read_frame_mux_complete hP hb bc' cap hcap
      rw [← hjoin] at hread
      refine ⟨[], ⟨MUX_OK, P, some P.length, some b, ⟨[], bc', 0⟩⟩, ?_, by simp,
        rfl, rfl, rfl, rfl⟩
      simp only [chunked_read_frames, hw, hread, List.nil_append]
    | cons c2 cs2 =>
      have hjoin2 : (pre ++ c) ++ (c2 :: cs2).join = lebBytes (P.length * 2 + b % 2) ++ P := by
        simp only [List.join_cons] at hjoin ⊢
        simp only [← List.append_assoc] at hjoin ⊢
        exact hjoin
      have htne : (c2 :: cs2).join ≠ [] := by
        have hc2 : c2 ≠ [] := hne c2 (by simp)
        simp only [List.join_cons]
        intro hcontra
        exact hc2 (List.append_eq_nil.mp hcontra).1
      have hagain := read_frame_mux_needs_more hP hjoin2 htne bc' cap
      obtain ⟨rs, r, hrec, hrs, hr1, hr2, hr3, hr4⟩ :=
        ih (pre ++ c) bc' (by simp) (fun x hx => hne x (by simp [hx])) hjoin2
      refine ⟨⟨MUX_ERROR_AGAIN, [], none, none, ⟨pre ++ c, bc', 0⟩⟩ :: rs, r,
        ?_, ?_, hr1, hr2, hr3, hr4⟩
      · rw [chunked_read_frames_cons, hw, hagain]
        have hproj : (⟨MUX_ERROR_AGAIN, [], none, none, ⟨pre ++ c, bc', 0⟩⟩ :
            read_frame_result).buf = (⟨pre ++ c, bc', 0⟩ : mux_buffer) := rfl
        rw [hproj, hrec]
        rfl
      · intro x hx
        rcases List.mem_cons.mp hx with rfl | hx'
        · rfl
        · exact hrs x hx'

/-- Claim C2: dual-stream frame round trip under arbitrary chunking.
Writing payload P with stream bit b through mux_leb128_write_frame and
feeding the written bytes to mux_leb128_read_frame in any partition
into non-empty chunks (appending one chunk before each call) yields
MUX_ERROR_AGAIN on every call but the last, and the last call returns
exactly (P, b) with the full payload size.  The payload length bound
2^62 reflects the 64-bit size_t header arithmetic (payload_size << 1
must not wrap); cap is the destination capacity, which the claim
assumes sufficient. -/
theorem C2_frame_roundtrip_chunked (P : List Nat) (b : Nat) (chunks : List (List Nat))
    (cap cw cr : Nat) (w : mux_buffer)
    (hb : b < 2) (hP : P.length < 2 ^ 62) (hcap : P.length ≤ cap)
    (hch : ∀ c ∈ chunks, c ≠ [])
    (hw : mux_leb128_write_frame (mux_buffer_init cw) P b 2 = .ok w)
    (hjoin : chunks.join = w.data) :
    ∃ rs r, chunked_read_frames (mux_buffer_init cr) chunks cap = rs ++ [r] ∧
      (∀ x ∈ rs, x.ret = MUX_ERROR_AGAIN) ∧
      r.ret = MUX_OK ∧ r.out = P ∧ r.payload_size = some P.length ∧
      r.stream_type = some b := by
  obtain ⟨w', hw', hdata, -⟩ := write_frame_mux (mux_buffer_init cw) P b
  rw [hw] at hw'
  obtain rfl : w = w' := by
    cases hw'
    rfl
  have hlws := lws_lt b hP
  have hmod : (P.length * 2 + b % 2) % 2 ^ 64 = P.length * 2 + b % 2 := by
    have h2 : (2:Nat) ^ 63 < 2 ^ 64 := by norm_num
    exact Nat.mod_eq_of_lt (by omega)
  rw [hmod] at hdata
  simp only [mux_buffer_init, List.nil_append] at hdata
  have hchne : chunks ≠ [] := by
    intro h
    rw [h] at hjoin
    simp at hjoin
    rw [hdata] at hjoin
    have := lebBytes_length_pos (P.length * 2 + b % 2)
    have hlen := congrArg List.length hjoin.symm
    simp at hlen
    omega
  exact chunked_read_frames_spec hP hb hcap chunks [] cr hchne hch
    (by rw [List.nil_append, hjoin, hdata])

/-- Claim C3: in dual-stream mode, when the input buffer holds no
complete frame - the varint header is incomplete (the LEB128 decoder
reports need-more-data on the unread region) or the decoded header
plus declared payload exceeds the unread bytes - mux_leb128_read_frame
returns MUX_ERROR_AGAIN and leaves the buffer exactly unchanged (same
read position and contents), so the same header is re-parsed on the
next call. -/
theorem C3_read_frame_incomplete_returns_again (input : mux_buffer) (cap : Nat) (pn : Bool)
    (h : mux_leb128_decode (input.data.drop input.read_pos) = .error MUX_ERROR_AGAIN ∨
      ∃ v k, mux_leb128_decode (input.data.drop input.read_pos) = .ok (v, k) ∧
        input.data.length - input.read_pos < k + v / 2) :
    mux_leb128_read_frame input pn cap 2 =
      ⟨MUX_ERROR_AGAIN, [], none, none, input⟩ := by
  simp only [mux_leb128_read_frame, if_neg (show ¬ (2:Nat) = 1 by norm_num)]
  rcases h with h | ⟨v, k, h, hlt⟩
  · rw [h]
  · rw [h]
    simp [hlt]

/-- Claim C4: in dual-stream mode, when a complete frame is present
but the non-null destination has capacity smaller than the decoded
payload length v / 2, mux_leb128_read_frame returns MUX_ERROR_INVAL,
stores the required payload size in *payload_size (and the stream bit
in *stream_type), and leaves the input buffer untouched so the caller
can enlarge the destination and retry. -/
theorem C4_read_frame_small_capacity_inval (input : mux_buffer) (cap v k : Nat)
    (hdec : mux_leb128_decode (input.data.drop input.read_pos) = .ok (v, k))
    (hcomplete : k + v / 2 ≤ input.data.length - input.read_pos)
    (hcap : cap < v / 2) :
    mux_leb128_read_frame input false cap 2 =
      ⟨MUX_ERROR_INVAL, [], some (v / 2), some (v % 2), input⟩ := by
  simp only [mux_leb128_read_frame, if_neg (show ¬ (2:Nat) = 1 by norm_num)]
  rw [hdec]
  simp [Nat.not_lt.mpr hcomplete, hcap]

/-- Claim C5 counterexample: a passthrough-mode buffer holding 2 unread
bytes read with payload_capacity 1 returns only 1 byte and leaves 1
byte unread, refuting the claim that mux_leb128_read_frame drains all
currently available bytes in a single call. -/
theorem C5_passthrough_drain_counterexample :
    mux_buffer_available ⟨[7, 8], 2, 0⟩ = 2 ∧
    (mux_leb128_read_frame ⟨[7, 8], 2, 0⟩ false 1 1).ret = MUX_OK ∧
    (mux_leb128_read_frame ⟨[7, 8], 2, 0⟩ false 1 1).payload_size = some 1 ∧
    mux_buffer_available (mux_leb128_read_frame ⟨[7, 8], 2, 0⟩ false 1 1).buf = 1 :=
  ⟨rfl, rfl, rfl, rfl⟩

/-- Claim C5 as amended: in passthrough mode, on a non-empty input
buffer mux_leb128_read_frame succeeds, reports stream type audio, and
drains min(available, payload_capacity) bytes - in particular all
available bytes whenever the capacity is at least the available count -
rather than unconditionally all available bytes. -/
theorem C5_passthrough_drains_min_available_capacity (input : mux_buffer) (cap : Nat) (pn : Bool)
    (hrp : input.read_pos ≤ input.data.length)
    (hne : 0 < mux_buffer_available input) :
    (mux_leb128_read_frame input pn cap 1).ret = MUX_OK ∧
    (mux_leb128_read_frame input pn cap 1).stream_type = some MUX_STREAM_AUDIO ∧
    (mux_leb128_read_frame input pn cap 1).payload_size =
      some (min (mux_buffer_available input) cap) ∧
    mux_buffer_available (mux_leb128_read_frame input pn cap 1).buf =
      mux_buffer_available input - min (mux_buffer_available input) cap := by
  simp only [mux_buffer_available] at *
  simp only [mux_leb128_read_frame]
  rw [if_pos trivial]
  rw [if_neg (show ¬ (input.data.length - input.read_pos = 0) by omega)]
  have hmin : (if input.data.length - input.read_pos < cap then
      input.data.length - input.read_pos else cap) =
      min (input.data.length - input.read_pos) cap := by
    split <;> omega
  refine ⟨rfl, rfl, by rw [hmin], ?_⟩
  by_cases hreset : input.read_pos +
      (if input.data.length - input.read_pos < cap then
        input.data.length - input.read_pos else cap) = input.data.length
  · rw [if_pos hreset]
    simp only [List.length_nil]
    omega
  · rw [if_neg hreset]
    simp only []
    split at hreset <;> omega

lemma mux_buffer_read_ret_ok (buf : mux_buffer) (n : Nat) (dn : Bool)
    (h : 0 < mux_buffer_available buf) :
    (mux_buffer_read buf n dn).ret = MUX_OK := by
  simp only [mux_buffer_available] at h
  simp only [mux_buffer_read]
  rw [if_neg (by omega)]

lemma mux_buffer_read_empty (buf : mux_buffer) (n : Nat) (dn : Bool)
    (h : mux_buffer_available buf = 0) :
    mux_buffer_read buf n dn = ⟨MUX_ERROR_AGAIN, [], 0, buf⟩ := by
  simp only [mux_buffer_available] at h
  simp only [mux_buffer_read]
  rw [if_pos h]

/-- Claim C6: whenever both decoder output buffers are non-empty,
decoder_read (the identical pcm_decoder_read, alaw_decoder_read and
amr_decoder_read) returns bytes from the audio buffer tagged
MUX_STREAM_AUDIO and leaves the side buffer untouched; and in any
state, a side-channel result can only occur when the audio output
buffer is empty. -/
theorem C6_decoder_read_audio_first (dec : mux_decoder) (n : Nat)
    (ha : 0 < mux_buffer_available dec.audio_output)
    (hs : 0 < mux_buffer_available dec.side_output) :
    ((pcm_decoder_read dec n).ret = MUX_OK ∧
     (pcm_decoder_read dec n).stream_type = some MUX_STREAM_AUDIO ∧
     (pcm_decoder_read dec n).out = (mux_buffer_read dec.audio_output n false).out ∧
     (pcm_decoder_read dec n).dec.side_output = dec.side_output) ∧
    alaw_decoder_read dec n = pcm_decoder_read dec n ∧
    amr_decoder_read dec n = pcm_decoder_read dec n ∧
    (∀ (d : mux_decoder) (m : Nat),
      (pcm_decoder_read d m).stream_type = some MUX_STREAM_SIDE_CHANNEL →
        mux_buffer_available d.audio_output = 0) := by
  refine ⟨?_, rfl, rfl, ?_⟩
  · have hok := mux_buffer_read_ret_ok dec.audio_output n false ha
    simp only [pcm_decoder_read, decoder_read_impl]
    rw [if_pos hok]
    exact ⟨rfl, rfl, rfl, rfl⟩
  · intro d m hside
    by_contra hav
    have ha' : 0 < mux_buffer_available d.audio_output := by omega
    have hok := mux_buffer_read_ret_ok d.audio_output m false ha'
    simp only [pcm_decoder_read, decoder_read_impl] at hside
    rw [if_pos hok] at hside
    simp only [ MUX_STREAM_AUDIO, MUX_STREAM_SIDE_CHANNEL] at hside
    cases hside

/-- Claim C7: for every codec identifier whose ops-table entry is
absent (out of the registered range, or library not compiled in) or
whose encoder_init function pointer is NULL, mux_encoder_init returns
MUX_ERROR_NOCODEC - for every adapter table, so no adapter function is
ever invoked (the result is independent of the adapters, and the model
returns before the Option-valued pointer could be applied). -/
theorem C7_encoder_init_nocodec (cfg : build_config) (adapters : Fin 10 → mux_codec_ops)
    (codec_type : Int) (sr ch ns : Nat)
    (hns : ns = 1 ∨ ns = 2)
    (habsent : mux_get_codec_ops cfg adapters codec_type = none ∨
      ∃ ops, mux_get_codec_ops cfg adapters codec_type = some ops ∧
        ops.encoder_init = none) :
    mux_encoder_init cfg adapters codec_type sr ch ns = .error MUX_ERROR_NOCODEC := by
  simp only [mux_encoder_init]
  rw [if_neg (by omega)]
  rcases habsent with h | ⟨ops, h, hinit⟩
  · rw [h]
  · rw [h]
    simp [hinit]

lemma buffer_op_preserves (buf : mux_buffer) (op : buffer_op)
    (h : mux_buffer_invariant buf) :
    mux_buffer_invariant (apply_buffer_op buf op) := by
  obtain ⟨h1, h2⟩ := h
  cases op with
  | write bytes =>
    simp only [apply_buffer_op, mux_buffer_write, mux_buffer_ensure_capacity]
    split
    · exact ⟨h1, h2⟩
    · split
      · next hcap =>
        exact ⟨by simp; omega, by simp; omega⟩
      · next hcap =>
        refine ⟨by simp; omega, by simp; split <;> omega⟩
  | read n dn =>
    simp only [apply_buffer_op, mux_buffer_read]
    split
    · exact ⟨h1, h2⟩
    · next hne =>
      simp only [mux_buffer_invariant]
      repeat' split
      all_goals simp
      all_goals try omega
      all_goals (split <;> omega)
  | clear =>
    exact ⟨by simp [apply_buffer_op, mux_buffer_clear],
           by simp [apply_buffer_op, mux_buffer_clear]⟩

/-- Claim C8: the byte-buffer invariant read_pos <= size <= capacity
holds after mux_buffer_init and after any sequence of write, read and
clear operations applied to it (each operation preserves it, by
buffer_op_preserves). -/
theorem C8_buffer_invariant_preserved (c : Nat) (ops : List buffer_op) :
    mux_buffer_invariant (apply_buffer_ops (mux_buffer_init c) ops) := by
  have hgen : ∀ (l : List buffer_op) (b : mux_buffer), mux_buffer_invariant b →
      mux_buffer_invariant (apply_buffer_ops b l) := by
    intro l
    induction l with
    | nil => intro b hb; exact hb
    | cons op rest ih =>
      intro b hb
      exact ih _ (buffer_op_preserves b op hb)
  exact hgen ops _ ⟨by simp [mux_buffer_init], by simp [mux_buffer_init]⟩

/-- Claim C10: on a non-empty buffer, mux_buffer_read with a NULL
destination succeeds exactly like a normal read - same return code,
same *bytes_read = min(requested, available), same final buffer
state - while copying nothing, acting as a skip rather than an
invalid argument. -/
theorem C10_buffer_read_null_dest_skips (buf : mux_buffer) (size : Nat)
    (h : 0 < mux_buffer_available buf) :
    (mux_buffer_read buf size true).ret = MUX_OK ∧
    (mux_buffer_read buf size true).out = [] ∧
    (mux_buffer_read buf size true).bytes_read =
      min size (mux_buffer_available buf) ∧
    (mux_buffer_read buf size true).bytes_read =
      (mux_buffer_read buf size false).bytes_read ∧
    (mux_buffer_read buf size true).buf = (mux_buffer_read buf size false).buf ∧
    (mux_buffer_read buf size true).ret = (mux_buffer_read buf size false).ret := by
  simp only [mux_buffer_available] at *
  have hc : ¬(buf.data.length - buf.read_pos = 0) := by omega
  simp only [mux_buffer_read, if_neg hc]
  refine ⟨by trivial, by trivial, ?_, by trivial, by trivial, by trivial⟩
  show (if buf.data.length - buf.read_pos < size then
      buf.data.length - buf.read_pos else size) =
    min size (buf.data.length - buf.read_pos)
  split <;> omega

lemma bytes_to_samples_length : ∀ l : List Nat, (bytes_to_samples l).length = l.length / 2
  | [] => by simp [bytes_to_samples]
  | [b] => by simp [bytes_to_samples]
  | b0 :: b1 :: rest => by
    simp only [bytes_to_samples, List.length_cons, bytes_to_samples_length rest]
    omega

lemma write_frame_always_ok (out : mux_buffer) (payload : List Nat) (st ns : Nat) :
    ∃ out', mux_leb128_write_frame out payload st ns = .ok out' := by
  by_cases hns : ns = 1
  · subst hns
    exact ⟨mux_buffer_write out payload, by simp [mux_leb128_write_frame]⟩
  · have hlws : (payload.length * 2 + st % 2) % 2 ^ 64 < 2 ^ 70 := by
      have h1 : (payload.length * 2 + st % 2) % 2 ^ 64 < 2 ^ 64 :=
        Nat.mod_lt _ (by norm_num)
      have h2 : (2:Nat) ^ 64 < 2 ^ 70 := by norm_num
      omega
    have henc := mux_leb128_encode_eq hlws
    exact ⟨mux_buffer_write (mux_buffer_write out
        (lebBytes ((payload.length * 2 + st % 2) % 2 ^ 64))) payload,
      by simp only [mux_leb128_write_frame, if_neg hns, henc]⟩

lemma amr_loop_small (native : List Int → List Nat) (ns : Nat)
    (ibuf samples : List Int) (out : mux_buffer)
    (h1 : ibuf.length < AMR_FRAME_SAMPLES)
    (h2 : ibuf.length + samples.length < AMR_FRAME_SAMPLES) :
    amr_encoder_encode_loop native ns ibuf samples out = .ok (ibuf ++ samples, out, []) := by
  cases samples with
  | nil => simp [amr_encoder_encode_loop]
  | cons s ss =>
    rw [amr_encoder_encode_loop.eq_2, dif_pos h1]
    simp only [AMR_FRAME_SAMPLES, List.length_cons] at h1 h2 ⊢
    have hcopy : (if ss.length + 1 < 160 - ibuf.length then ss.length + 1
        else 160 - ibuf.length) = ss.length + 1 := by
      rw [if_pos (by omega)]
    rw [hcopy]
    rw [List.take_of_length_le (by simp), List.drop_of_length_le (by simp)]
    rw [if_neg (by simp; omega)]
    rw [amr_encoder_encode_loop.eq_1]

lemma amr_loop_161 (native : List Int → List Nat) (ns : Nat)
    (samples : List Int) (out : mux_buffer) (hlen : samples.length = 161) :
    ∃ out1, mux_leb128_write_frame out (native (samples.take 160))
        MUX_STREAM_AUDIO ns = .ok out1 ∧
      amr_encoder_encode_loop native ns [] samples out =
        .ok (samples.drop 160, out1, [native (samples.take 160)]) := by
  obtain ⟨s, ss, rfl⟩ := List.exists_cons_of_ne_nil
    (show samples ≠ [] by intro h; rw [h] at hlen; cases hlen)
  obtain ⟨out1, hw⟩ := write_frame_always_ok out (native ((s :: ss).take 160))
    MUX_STREAM_AUDIO ns
  refine ⟨out1, hw, ?_⟩
  rw [amr_encoder_encode_loop.eq_2, dif_pos (by simp [AMR_FRAME_SAMPLES])]
  simp only [AMR_FRAME_SAMPLES, List.length_cons, List.nil_append, Nat.sub_zero,
    List.length_nil] at hlen ⊢
  have hcopy : (if ss.length + 1 < 160 then ss.length + 1 else 160) = 160 := by
    rw [if_neg (by omega)]
  rw [hcopy]
  rw [if_pos (by simp; omega)]
  rw [hw]
  simp only [amr_loop_small native ns [] ((s :: ss).drop 160) out1
    (by simp [AMR_FRAME_SAMPLES]) (by simp [AMR_FRAME_SAMPLES]; omega)]
  simp

/-- Claim C9: feeding the AMR-NB encoder 322 bytes (161 samples) of
audio from a fresh state consumes all 322 bytes, invokes the native
encoder exactly once on the first 160 samples and writes that single
frame, and retains the 1 leftover sample in the window; a subsequent
finalize zero-pads the leftover to a full 160-sample frame, encodes
and writes it, and clears the window.  native models the external
Encoder_Interface_Encode, assumed to produce non-empty frames. -/
theorem C9_amr_161_samples (native : List Int → List Nat) (ns : Nat) (out0 : mux_buffer)
    (input : List Nat) (hlen : input.length = 322)
    (hnative : ∀ l, native l ≠ []) :
    ∃ out1 out2,
      amr_encoder_encode native ⟨[], out0, ns⟩ input MUX_STREAM_AUDIO =
        .ok (⟨(bytes_to_samples input).drop 160, out1, ns⟩, 322,
             [native ((bytes_to_samples input).take 160)]) ∧
      ((bytes_to_samples input).drop 160).length = 1 ∧
      amr_encoder_finalize native ⟨(bytes_to_samples input).drop 160, out1, ns⟩ =
        .ok (⟨[], out2, ns⟩,
             [native ((bytes_to_samples input).drop 160 ++ List.replicate 159 0)]) := by
  have hsl : (bytes_to_samples input).length = 161 := by
    rw [bytes_to_samples_length, hlen]
  obtain ⟨out1, hw1, hloop⟩ := amr_loop_161 native ns (bytes_to_samples input) out0 hsl
  have hdrop : ((bytes_to_samples input).drop 160).length = 1 := by
    rw [List.length_drop, hsl]
  obtain ⟨out2, hw2⟩ := write_frame_always_ok out1
    (native ((bytes_to_samples input).drop 160 ++ List.replicate 159 0))
    MUX_STREAM_AUDIO ns
  refine ⟨out1, out2, ?_, hdrop, ?_⟩
  · simp only [amr_encoder_encode]
    rw [if_neg (show ¬ (input.length = 0) by omega)]
    rw [if_neg (show ¬ ( MUX_STREAM_AUDIO ≠ MUX_STREAM_AUDIO) by simp)]
    simp only [hloop, hsl]
  · simp only [amr_encoder_finalize]
    rw [if_pos (show 0 < ((bytes_to_samples input).drop 160).length by omega)]
    simp only [AMR_FRAME_SAMPLES, hdrop]
    rw [if_pos (List.length_pos.mpr (hnative _))]
    rw [hw2]

/-- Witness for C2 at payload [5, 6, 7], stream bit 1, chunks
[[7, 5], [6, 7]]. -/
theorem C2_frame_roundtrip_chunked_witness :
    (1 : Nat) < 2 ∧ ([5, 6, 7] : List Nat).length < 2 ^ 62 ∧
    ([5, 6, 7] : List Nat).length ≤ 3 ∧
    (∀ c ∈ [[7, 5], [6, 7]], c ≠ ([] : List Nat)) ∧
    mux_leb128_write_frame (mux_buffer_init 0) [5, 6, 7] 1 2 =
      .ok ⟨[7, 5, 6, 7], 4, 0⟩ ∧
    ([[7, 5], [6, 7]] : List (List Nat)).join = [7, 5, 6, 7] ∧
    (∃ rs r, chunked_read_frames (mux_buffer_init 0) [[7, 5], [6, 7]] 3 = rs ++ [r] ∧
      (∀ x ∈ rs, x.ret = MUX_ERROR_AGAIN) ∧
      r.ret = MUX_OK ∧ r.out = [5, 6, 7] ∧ r.payload_size = some 3 ∧
      r.stream_type = some 1) :=
  ⟨by norm_num, by norm_num, by norm_num, by decide, rfl, rfl,
   C2_frame_roundtrip_chunked [5, 6, 7] 1 [[7, 5], [6, 7]] 3 0 0 ⟨[7, 5, 6, 7], 4, 0⟩
     (by norm_num) (by norm_num) (by norm_num) (by decide) rfl rfl⟩

/-- Witness for C3 at a buffer holding the single continuation byte
0x82 (an incomplete varint header). -/
theorem C3_read_frame_incomplete_returns_again_witness :
    mux_leb128_decode (List.drop 0 [130]) = .error MUX_ERROR_AGAIN ∧
    mux_leb128_read_frame ⟨[130], 4, 0⟩ false 10 2 =
      ⟨MUX_ERROR_AGAIN, [], none, none, ⟨[130], 4, 0⟩⟩ :=
  ⟨rfl, C3_read_frame_incomplete_returns_again ⟨[130], 4, 0⟩ 10 false (Or.inl rfl)⟩

/-- Witness for C4 at a complete 3-byte-payload frame read with
capacity 2. -/
theorem C4_read_frame_small_capacity_inval_witness :
    mux_leb128_decode (List.drop 0 [6, 1, 2, 3]) = .ok (6, 1) ∧
    (1 + 6 / 2 : Nat) ≤ List.length [6, 1, 2, 3] - 0 ∧ (2 : Nat) < 6 / 2 ∧
    mux_leb128_read_frame ⟨[6, 1, 2, 3], 4, 0⟩ false 2 2 =
      ⟨MUX_ERROR_INVAL, [], some (6 / 2), some (6 % 2), ⟨[6, 1, 2, 3], 4, 0⟩⟩ :=
  ⟨rfl, by decide, by decide,
   C4_read_frame_small_capacity_inval ⟨[6, 1, 2, 3], 4, 0⟩ 2 6 1 rfl
     (by decide) (by decide)⟩

/-- Witness for the amended C5 at a 2-byte buffer read with capacity 1. -/
theorem C5_passthrough_drains_min_available_capacity_witness :
    (⟨[7, 8], 2, 0⟩ : mux_buffer).read_pos ≤
      (⟨[7, 8], 2, 0⟩ : mux_buffer).data.length ∧
    0 < mux_buffer_available ⟨[7, 8], 2, 0⟩ ∧
    ((mux_leb128_read_frame ⟨[7, 8], 2, 0⟩ false 1 1).ret = MUX_OK ∧
     (mux_leb128_read_frame ⟨[7, 8], 2, 0⟩ false 1 1).stream_type =
       some MUX_STREAM_AUDIO ∧
     (mux_leb128_read_frame ⟨[7, 8], 2, 0⟩ false 1 1).payload_size =
       some (min (mux_buffer_available ⟨[7, 8], 2, 0⟩) 1) ∧
     mux_buffer_available (mux_leb128_read_frame ⟨[7, 8], 2, 0⟩ false 1 1).buf =
       mux_buffer_available ⟨[7, 8], 2, 0⟩ -
         min (mux_buffer_available ⟨[7, 8], 2, 0⟩) 1) :=
  ⟨by decide, by decide,
   C5_passthrough_drains_min_available_capacity ⟨[7, 8], 2, 0⟩ 1 false
     (by decide) (by decide)⟩

/-- Witness for C6 at a decoder whose audio buffer holds [1, 2] and
side buffer holds [9]. -/
theorem C6_decoder_read_audio_first_witness :
    0 < mux_buffer_available
      (⟨⟨[1, 2], 4, 0⟩, ⟨[9], 4, 0⟩⟩ : mux_decoder).audio_output ∧
    0 < mux_buffer_available
      (⟨⟨[1, 2], 4, 0⟩, ⟨[9], 4, 0⟩⟩ : mux_decoder).side_output ∧
    ((pcm_decoder_read ⟨⟨[1, 2], 4, 0⟩, ⟨[9], 4, 0⟩⟩ 10).ret = MUX_OK ∧
     (pcm_decoder_read ⟨⟨[1, 2], 4, 0⟩, ⟨[9], 4, 0⟩⟩ 10).stream_type =
       some MUX_STREAM_AUDIO ∧
     (pcm_decoder_read ⟨⟨[1, 2], 4, 0⟩, ⟨[9], 4, 0⟩⟩ 10).out =
       (mux_buffer_read
         (⟨⟨[1, 2], 4, 0⟩, ⟨[9], 4, 0⟩⟩ : mux_decoder).audio_output 10 false).out ∧
     (pcm_decoder_read ⟨⟨[1, 2], 4, 0⟩, ⟨[9], 4, 0⟩⟩ 10).dec.side_output =
       (⟨⟨[1, 2], 4, 0⟩, ⟨[9], 4, 0⟩⟩ : mux_decoder).side_output) :=
  ⟨by decide, by decide,
   (C6_decoder_read_audio_first ⟨⟨[1, 2], 4, 0⟩, ⟨[9], 4, 0⟩⟩ 10
     (by decide) (by decide)).1⟩

/-- Witness for C7: MP3 requested in a build with no optional codec
libraries, every adapter slot empty. -/
theorem C7_encoder_init_nocodec_witness :
    ((2 : Nat) = 1 ∨ (2 : Nat) = 2) ∧
    mux_get_codec_ops ⟨false, false, false, false, false, false, false⟩
      (fun _ => ⟨none⟩) 4 = none ∧
    mux_encoder_init ⟨false, false, false, false, false, false, false⟩
      (fun _ => ⟨none⟩) 4 44100 2 2 = .error MUX_ERROR_NOCODEC :=
  ⟨Or.inr rfl, rfl,
   C7_encoder_init_nocodec ⟨false, false, false, false, false, false, false⟩
     (fun _ => ⟨none⟩) 4 44100 2 2 (Or.inr rfl) (Or.inl rfl)⟩

/-- Witness for C9 at 322 zero bytes with a native encoder that always
produces the one-byte frame [7]. -/
theorem C9_amr_161_samples_witness :
    (List.replicate 322 (0 : Nat)).length = 322 ∧
    (∀ l : List Int, (fun _ : List Int => ([7] : List Nat)) l ≠ []) ∧
    (∃ out1 out2,
      amr_encoder_encode (fun _ : List Int => ([7] : List Nat))
          ⟨[], mux_buffer_init 0, 2⟩ (List.replicate 322 0) MUX_STREAM_AUDIO =
        .ok (⟨(bytes_to_samples (List.replicate 322 0)).drop 160, out1, 2⟩, 322,
             [[7]]) ∧
      ((bytes_to_samples (List.replicate 322 0)).drop 160).length = 1 ∧
      amr_encoder_finalize (fun _ : List Int => ([7] : List Nat))
          ⟨(bytes_to_samples (List.replicate 322 0)).drop 160, out1, 2⟩ =
        .ok (⟨[], out2, 2⟩, [[7]])) :=
  ⟨by simp only [List.length_replicate], fun l => by simp,
   C9_amr_161_samples (fun _ => [7]) 2 (mux_buffer_init 0) (List.replicate 322 0)
     (by simp only [List.length_replicate]) (fun l => by simp)⟩

/-- Witness for C10 at a 3-byte buffer with one byte already consumed,
reading 5 bytes into a NULL destination. -/
theorem C10_buffer_read_null_dest_skips_witness :
    0 < mux_buffer_available ⟨[5, 6, 7], 4, 1⟩ ∧
    ((mux_buffer_read ⟨[5, 6, 7], 4, 1⟩ 5 true).ret = MUX_OK ∧
     (mux_buffer_read ⟨[5, 6, 7], 4, 1⟩ 5 true).out = [] ∧
     (mux_buffer_read ⟨[5, 6, 7], 4, 1⟩ 5 true).bytes_read =
       min 5 (mux_buffer_available ⟨[5, 6, 7], 4, 1⟩) ∧
     (mux_buffer_read ⟨[5, 6, 7], 4, 1⟩ 5 true).bytes_read =
       (mux_buffer_read ⟨[5, 6, 7], 4, 1⟩ 5 false).bytes_read ∧
     (mux_buffer_read ⟨[5, 6, 7], 4, 1⟩ 5 true).buf =
       (mux_buffer_read ⟨[5, 6, 7], 4, 1⟩ 5 false).buf ∧
     (mux_buffer_read ⟨[5, 6, 7], 4, 1⟩ 5 true).ret =
       (mux_buffer_read ⟨[5, 6, 7], 4, 1⟩ 5 false).ret) :=
  ⟨by decide,
   C10_buffer_read_null_dest_skips ⟨[5, 6, 7], 4, 1⟩ 5 (by decide)⟩
